import Mathlib

/-!
Verification of the hhx index engine (`internal/models/index.go`,
`internal/models/file.go`, `internal/models/collections.go`,
`internal/models/errors.go`).

Shallow embedding conventions:
* Go `map[string]*T` is modelled as an association list `List (String × T)`
  with Go-map semantics (`mapLookup`, `mapInsert`, `mapErase`); pointer
  values are modelled by value since the index code never relies on lasting
  aliasing across populations.
* Filesystem interaction (`os.Stat`, `filepath.Rel`, hashing, walks) is
  modelled by passing in the observations those calls return (`PathObs`,
  `FsTree`); an `Option` field is `none` when the corresponding call errors.
* `time.Time` is modelled as an `Int` (wall-clock nanoseconds; RFC3339Nano
  serialization used by the JSON codec round-trips this value).
* JSON persistence is modelled at the document level (`IndexDoc`): the
  struct-tag driven shape of `json.Marshal`/`json.Unmarshal` on `Index`,
  including `omitempty` behaviour, rather than the byte-level text.
* Go struct fields named `Type` are rendered as `Type'` because `Type` is a
  Lean keyword.
-/

namespace Hhx

/-- Go map lookup `m[k]` for `map[string]α` modelled as an association list. -/
def mapLookup {α : Type} (l : List (String × α)) (k : String) : Option α :=
  match l with
  | [] => none
  | e :: es => if e.1 = k then some e.2 else mapLookup es k

/-- Go map assignment `m[k] = v`: replace the entry if the key is present,
otherwise add it. -/
def mapInsert {α : Type} (l : List (String × α)) (k : String) (v : α) :
    List (String × α) :=
  match l with
  | [] => [(k, v)]
  | e :: es => if e.1 = k then (k, v) :: es else e :: mapInsert es k v

/-- Go `delete(m, k)`. -/
def mapErase {α : Type} (l : List (String × α)) (k : String) :
    List (String × α) :=
  match l with
  | [] => []
  | e :: es => if e.1 = k then mapErase es k else e :: mapErase es k

theorem mapLookup_insert_self {α : Type} (l : List (String × α)) (k : String)
    (v : α) : mapLookup (mapInsert l k v) k = some v := by
  induction l with
  | nil => simp [mapInsert, mapLookup]
  | cons e es ih =>
    by_cases h : e.1 = k
    · simp [mapInsert, mapLookup, h]
    · simp [mapInsert, mapLookup, h, ih]

theorem mapLookup_insert_ne {α : Type} (l : List (String × α)) {k k' : String}
    (v : α) (h : k' ≠ k) :
    mapLookup (mapInsert l k v) k' = mapLookup l k' := by
  induction l with
  | nil => simp [mapInsert, mapLookup, Ne.symm h]
  | cons e es ih =>
    by_cases he : e.1 = k
    · subst he
      simp [mapInsert, mapLookup, Ne.symm h]
    · by_cases he' : e.1 = k'
      · simp [mapInsert, mapLookup, he, he', h]
      · simp [mapInsert, mapLookup, he, he', ih]

theorem mapLookup_erase_self {α : Type} (l : List (String × α)) (k : String) :
    mapLookup (mapErase l k) k = none := by
  induction l with
  | nil => simp [mapErase, mapLookup]
  | cons e es ih =>
    by_cases h : e.1 = k
    · simp [mapErase, h, ih]
    · simp [mapErase, mapLookup, h, ih]

theorem mapLookup_erase_ne {α : Type} (l : List (String × α)) {k k' : String}
    (h : k' ≠ k) : mapLookup (mapErase l k) k' = mapLookup l k' := by
  induction l with
  | nil => simp [mapErase]
  | cons e es ih =>
    by_cases he : e.1 = k
    · subst he
      simp [mapErase, mapLookup, Ne.symm h, ih]
    · simp [mapErase, mapLookup, he, ih]

theorem mapLookup_eq_none_of_forall {α : Type} {l : List (String × α)}
    {k : String} (h : ∀ e ∈ l, e.1 ≠ k) : mapLookup l k = none := by
  induction l with
  | nil => rfl
  | cons e es ih =>
    have h1 : e.1 ≠ k := h e (by simp)
    simp only [mapLookup, if_neg h1]
    exact ih fun e' he' => h e' (by simp [he'])

theorem mem_of_mapLookup_eq_some {α : Type} {l : List (String × α)}
    {k : String} {v : α} (h : mapLookup l k = some v) : (k, v) ∈ l := by
  induction l with
  | nil => simp [mapLookup] at h
  | cons e es ih =>
    by_cases he : e.1 = k
    · simp only [mapLookup, if_pos he] at h
      obtain ⟨k1, v1⟩ := e
      injection h with h2
      subst h2
      subst he
      exact List.mem_cons_self _ _
    · simp only [mapLookup, if_neg he] at h
      exact List.mem_cons_of_mem _ (ih h)

/-- `FileStatus` from `internal/models/file.go` (a Go string enum; only the
four declared constants are ever assigned or compared). -/
inductive FileStatus where
  | untracked
  | modified
  | staged
  | synced
deriving DecidableEq, Repr

/-- `File` from `internal/models/file.go`. -/
structure File where
  Path : String
  Size : Int
  Hash : String
  LastModified : Int
  Status : FileStatus
  RemoteURL : String
  Collection : String
deriving DecidableEq, Repr

/-- The filesystem observations `NewFileFromPath` makes for one path:
the `filepath.Rel`+`ToSlash` result (`none` on error), the `os.Stat`
result `(isDir, size, modTime)` (`none` on error), and the `hashFile`
result (`none` on error). -/
structure PathObs where
  rel : Option String
  stat : Option (Bool × Int × Int)
  hash : Option String
deriving DecidableEq, Repr

/-- `NewFileFromPath` from `internal/models/file.go`, over the observations
of its filesystem calls. Result `none` is Go's `(nil, err)`, `some none`
is `(nil, nil)` (a directory, skipped), `some (some f)` is `(f, nil)`. -/
def NewFileFromPath (obs : PathObs) : Option (Option File) :=
  match obs.rel with
  | none => none
  | some relativePath =>
    match obs.stat with
    | none => none
    | some (isDir, size, mtime) =>
      if isDir then some none
      else
        match obs.hash with
        | none => none
        | some h =>
          some (some { Path := relativePath, Size := size, Hash := h,
                       LastModified := mtime, Status := .untracked,
                       RemoteURL := "", Collection := "" })

/-- Collection type constant `CollectionTypeBucket` (`"bucket"`); the Go
`CollectionType` is a string type, so it is modelled as `String`. -/
def collectionTypeBucket : String := "bucket"

/-- Collection type constant `CollectionTypeTable` (`"table"`). -/
def collectionTypeTable : String := "table"

/-- JSON value kinds stored in the duck-typed `interface{}` fields
(`Collection.Metadata` values, `Column.DefaultValue`), per the spec's
design note: string, number, bool (JSON numbers modelled as `Int`). -/
inductive JValue where
  | str (s : String)
  | num (n : Int)
  | bool (b : Bool)
  | null
deriving DecidableEq, Repr

/-- `Column` from `internal/models/collections.go`. -/
structure Column where
  Name : String
  Type' : String
  PrimaryKey : Bool
  Nullable : Bool
  DefaultValue : Option JValue
deriving DecidableEq, Repr

/-- `Schema` from `internal/models/collections.go`. -/
structure Schema where
  Columns : List Column
deriving DecidableEq, Repr

/-- `Collection` from `internal/models/collections.go`. -/
structure Collection where
  Name : String
  Type' : String
  Path : String
  Schema : Option Schema
  Metadata : List (String × JValue)
deriving DecidableEq, Repr

/-- `Collection.Validate` from `internal/models/collections.go`; `some msg`
models a returned `error` with that message, `none` models `nil`. -/
def Collection.Validate (c : Collection) : Option String :=
  if c.Name = "" then some "collection name cannot be empty"
  else if c.Type' ≠ collectionTypeBucket ∧ c.Type' ≠ collectionTypeTable then
    some ("invalid collection type: " ++ c.Type')
  else if c.Path = "" then some "collection path cannot be empty"
  else if c.Type' = collectionTypeTable ∧ c.Schema = none then
    some "schema is required for table collections"
  else if c.Type' = collectionTypeBucket ∧ c.Schema ≠ none then
    some "schema is not applicable for bucket collections"
  else none

/-- The error values of `internal/models/errors.go` plus the generic
validation errors produced by `Collection.Validate`. -/
inductive IndexError where
  | collectionExists
  | collectionNotFound
  | noDefaultCollection
  | validation (msg : String)
deriving DecidableEq, Repr

/-- `Index` from `internal/models/index.go` (the `sync.RWMutex` field is
operational, not state, and is omitted). -/
structure Index where
  Files : List (String × File)
  Deleted : List (String × File)
  Synced : List (String × File)
  Collections : List (String × Collection)
  DefaultCollection : String
  RepoRoot : String
deriving DecidableEq, Repr

/-- `NewIndex` from `internal/models/index.go`: all four maps empty, the
default collection left at the string zero value. -/
def NewIndex (repoRoot : String) : Index :=
  { Files := [], Deleted := [], Synced := [], Collections := [],
    DefaultCollection := "", RepoRoot := repoRoot }

/-- The classification block that `StageFile` and `StageDirectory` both
contain verbatim (`index.go` lines 243-257 and 307-321): look the fresh
record's path up in `Synced`, carry the remote URL forward, then force the
status to `staged`. -/
def classifyAndStage (idx : Index) (f0 : File) : File :=
  let f1 :=
    match mapLookup idx.Synced f0.Path with
    | some synced =>
      if synced.Hash = f0.Hash then
        { f0 with Status := .synced, RemoteURL := synced.RemoteURL }
      else
        { f0 with Status := .modified, RemoteURL := synced.RemoteURL }
    | none => { f0 with Status := .untracked }
  { f1 with Status := .staged }

/-- `Index.StageFile` from `internal/models/index.go`. The `Bool` component
is `true` when Go returns a non-nil error; the `Index` component is the
receiver's state afterwards (unchanged on error, since the error returns
precede every mutation). -/
def Index.StageFile (idx : Index) (obs : PathObs) : Index × Bool :=
  match NewFileFromPath obs with
  | none => (idx, true)
  | some none => (idx, false)
  | some (some f0) =>
    let f := classifyAndStage idx f0
    ({ idx with Files := mapInsert idx.Files f.Path f,
                Deleted := mapErase idx.Deleted f.Path }, false)

/-- `Index.UnstageFile` from `internal/models/index.go`; `rel` is the
`filepath.Rel`+`ToSlash` observation (`none` on error, which returns with
no change). -/
def Index.UnstageFile (idx : Index) (rel : Option String) : Index :=
  match rel with
  | none => idx
  | some relPath => { idx with Files := mapErase idx.Files relPath }

/-- `Index.MarkSynced` from `internal/models/index.go`. -/
def Index.MarkSynced (idx : Index) (path remoteURL : String) : Index :=
  match mapLookup idx.Files path with
  | some file =>
    let f := { file with Status := .synced, RemoteURL := remoteURL }
    { idx with Synced := mapInsert idx.Synced path f,
               Files := mapErase idx.Files path }
  | none => idx

/-- C7: if `path` is a key of `Files`, `MarkSynced` sets that record's
status to synced and its remote location to the given URL, inserts it into
`Synced` under `path`, and removes `path` from `Files`; if `path` is not a
key of `Files`, `MarkSynced` leaves the index entirely unchanged. -/
theorem markSynced_spec (idx : Index) (path url : String) :
    (∀ f, mapLookup idx.Files path = some f →
      mapLookup (Index.MarkSynced idx path url).Synced path =
        some { f with Status := .synced, RemoteURL := url } ∧
      mapLookup (Index.MarkSynced idx path url).Files path = none ∧
      (Index.MarkSynced idx path url).Deleted = idx.Deleted ∧
      (Index.MarkSynced idx path url).Collections = idx.Collections ∧
      (Index.MarkSynced idx path url).DefaultCollection =
        idx.DefaultCollection ∧
      (Index.MarkSynced idx path url).RepoRoot = idx.RepoRoot) ∧
    (mapLookup idx.Files path = none → Index.MarkSynced idx path url = idx) := by
  constructor
  · intro f hf
    refine ⟨?_, ?_, ?_, ?_, ?_, ?_⟩ <;>
      simp [Index.MarkSynced, hf, mapLookup_insert_self, mapLookup_erase_self]
  · intro hnone
    simp [Index.MarkSynced, hnone]

/-- Go `strings.HasPrefix` / `name[0] == '.'` checks, modelled on the
character list underlying the string (kernel-reducible, unlike
`String.startsWith`). -/
def strStartsWith (s pre : String) : Bool :=
  pre.data.isPrefixOf s.data

/-- One regular-file visit of a `filepath.Walk`: the walk-provided stat info
(`size`, `mtime` from `info`), the `filepath.Rel`+`ToSlash` result (`none`
on error) and the `hashFile` result (`none` on error) for that path. -/
structure FileNode where
  size : Int
  mtime : Int
  rel : Option String
  hash : Option String
deriving DecidableEq, Repr

/-- The filesystem slice a `filepath.Walk` traverses, encoded as a forest:
`nofiles` ends a sibling list, `file` and `dir` carry their right siblings
in `rest`. `werr` is a non-nil `err` argument passed to the walk callback
for that entry (in which case the walk cannot descend into a directory).
`restat` on a file is the result of the second `os.Stat` that
`NewFileFromPath` performs during `StageDirectory`. -/
inductive FsTree where
  | nofiles
  | file (werr : Bool) (node : FileNode) (restat : Option (Bool × Int × Int))
      (rest : FsTree)
  | dir (name : String) (werr : Bool) (children : FsTree) (rest : FsTree)
deriving DecidableEq, Repr

/-- The body of `StageDirectory`'s walk callback for a non-directory entry
(`index.go` lines 298-324): run `NewFileFromPath`, skip on `(nil, nil)`,
abort on error, otherwise classify, force staged, and store in `Files`.
Unlike `StageFile`, it does not touch `Deleted`. -/
def stageWalkFile (idx : Index) (obs : PathObs) : Option Index :=
  match NewFileFromPath obs with
  | none => none
  | some none => some idx
  | some (some f0) =>
    let f := classifyAndStage idx f0
    some { idx with Files := mapInsert idx.Files f.Path f }

/-- The `filepath.Walk` of `StageDirectory`: directory entries named
`.git`, `.hhx`, or starting with `.` are skipped with `SkipDir` (their
subtree never visited); a non-nil walk error or a callback error aborts
the walk, keeping the mutations already made. The `Bool` is `true` when
the walk returned a non-nil error. -/
def walkStage (idx : Index) : FsTree → Index × Bool
  | .nofiles => (idx, false)
  | .file werr node restat rest =>
    if werr then (idx, true)
    else
      match stageWalkFile idx
          { rel := node.rel, stat := restat, hash := node.hash } with
      | none => (idx, true)
      | some idx1 => walkStage idx1 rest
  | .dir name werr children rest =>
    if werr then (idx, true)
    else if name = ".git" ∨ name = ".hhx" ∨ strStartsWith name "." = true then
      walkStage idx rest
    else
      match walkStage idx children with
      | (idx1, true) => (idx1, true)
      | (idx1, false) => walkStage idx1 rest

/-- `Index.StageDirectory` from `internal/models/index.go`, over the tree
the walk presents. -/
def Index.StageDirectory (idx : Index) (root : FsTree) : Index × Bool :=
  walkStage idx root

/-- C2 (amended): each non-directory file visit of `StageDirectory` agrees
with `StageFile` on the same observations in its error behaviour, its
classification against `Synced`, the forced-staged status and the record
replacing any `Files` entry — but it leaves `Deleted` unchanged, where
`StageFile` removes the staged path from `Deleted`. -/
theorem stageDirectory_file_eqv (idx : Index) (obs : PathObs) :
    stageWalkFile idx obs =
      if (Index.StageFile idx obs).2 then none
      else some { (Index.StageFile idx obs).1 with Deleted := idx.Deleted } := by
  obtain ⟨fs, dels, syncs, cols, dc, rr⟩ := idx
  cases hn : NewFileFromPath obs with
  | none => simp [stageWalkFile, Index.StageFile, hn]
  | some o =>
    cases o with
    | none => simp [stageWalkFile, Index.StageFile, hn]
    | some f0 => simp [stageWalkFile, Index.StageFile, hn]

/-- Deleted record used by the C2 counterexample. -/
def fileDel : File :=
  { Path := "a.txt", Size := 1, Hash := "h0", LastModified := 0,
    Status := .synced, RemoteURL := "", Collection := "" }

/-- Index whose `Deleted` map holds `a.txt`, for the C2 counterexample. -/
def idxC2 : Index :=
  { Files := [], Deleted := [("a.txt", fileDel)], Synced := [],
    Collections := [], DefaultCollection := "", RepoRoot := "r" }

/-- Observations for staging the re-appeared file `a.txt`. -/
def obsC2 : PathObs :=
  { rel := some "a.txt", stat := some (false, 1, 0), hash := some "h1" }

/-- A walk of the repository root visiting exactly the file `a.txt`. -/
def treeC2 : FsTree :=
  .dir "r" false
    (.file false { size := 1, mtime := 0, rel := some "a.txt",
                   hash := some "h1" } (some (false, 1, 0)) .nofiles)
    .nofiles

/-- C2 counterexample: staging `a.txt` through `StageDirectory` leaves it
in `Deleted`, while `StageFile` on the same path and observations removes
it, so the resulting index states differ. -/
theorem stageDirectory_deleted_counterexample :
    mapLookup (Index.StageDirectory idxC2 treeC2).1.Deleted "a.txt" =
      some fileDel ∧
    mapLookup (Index.StageFile idxC2 obsC2).1.Deleted "a.txt" = none ∧
    (Index.StageDirectory idxC2 treeC2).1 ≠ (Index.StageFile idxC2 obsC2).1 := by
  decide

/-- The mutable locals of `ScanWorkingDirectory`'s walk: the paths marked
seen in the `seen` map, and the three accumulated slices. -/
structure ScanState where
  seen : List String
  newFiles : List File
  modifiedFiles : List File
  unchangedFiles : List File
deriving DecidableEq, Repr

/-- The body of `ScanWorkingDirectory`'s walk callback for one regular file
(`index.go` lines 416-464): relative path (skip on error), skip anything
under `.hhx/`, hash (skip on error), then classify against `Synced`,
marking the path seen and emitting a modified/unchanged/new record. -/
def scanFileStep (idx : Index) (st : ScanState) (n : FileNode) : ScanState :=
  match n.rel with
  | none => st
  | some relPath =>
    if strStartsWith relPath ".hhx/" = true then st
    else
      match n.hash with
      | none => st
      | some h =>
        match mapLookup idx.Synced relPath with
        | some synced =>
          let st1 := { st with seen := relPath :: st.seen }
          if synced.Hash ≠ h then
            { st1 with modifiedFiles := st1.modifiedFiles ++
                [{ Path := relPath, Size := n.size, Hash := h,
                   LastModified := n.mtime, Status := .modified,
                   RemoteURL := synced.RemoteURL, Collection := "" }] }
          else { st1 with unchangedFiles := st1.unchangedFiles ++ [synced] }
        | none =>
          { st with newFiles := st.newFiles ++
              [{ Path := relPath, Size := n.size, Hash := h,
                 LastModified := n.mtime, Status := .untracked,
                 RemoteURL := "", Collection := "" }] }

/-- The `filepath.Walk` of `ScanWorkingDirectory` (`index.go` lines
390-467): walk errors skip the entry (and, for a directory, its unreadable
subtree) instead of aborting; hidden, `.git`, `.hhx`, `cmake-build-debug`
and `build` directories are skipped with `SkipDir`. -/
def scanWalk (idx : Index) (st : ScanState) : FsTree → ScanState
  | .nofiles => st
  | .file werr node _ rest =>
    scanWalk idx (if werr then st else scanFileStep idx st node) rest
  | .dir name werr children rest =>
    if werr then scanWalk idx st rest
    else if name = ".git" ∨ name = ".hhx" ∨ strStartsWith name "." = true then
      scanWalk idx st rest
    else if name = "cmake-build-debug" ∨ name = "build" then
      scanWalk idx st rest
    else scanWalk idx (scanWalk idx st children) rest

/-- The regular files `ScanWorkingDirectory`'s walk actually hands to its
callback with a nil error, in visit order. -/
def scanVisited : FsTree → List FileNode
  | .nofiles => []
  | .file werr node _ rest =>
    (if werr then [] else [node]) ++ scanVisited rest
  | .dir name werr children rest =>
    (if werr then []
     else if name = ".git" ∨ name = ".hhx" ∨ strStartsWith name "." = true then []
     else if name = "cmake-build-debug" ∨ name = "build" then []
     else scanVisited children) ++ scanVisited rest

/-- Return value of `ScanWorkingDirectory`; `err` models the fourth Go
return value (the source returns a literal `nil` there). -/
structure ScanResult where
  newFiles : List File
  modifiedFiles : List File
  deletedFiles : List File
  err : Option String
  index : Index
deriving DecidableEq, Repr

/-- `Index.ScanWorkingDirectory` from `internal/models/index.go`: run the
walk, then move every `Synced` entry whose path was not marked seen into
`Deleted` with status forced to untracked, also returning those records as
`deletedFiles`. -/
def Index.ScanWorkingDirectory (idx : Index) (root : FsTree) : ScanResult :=
  let st := scanWalk idx
    { seen := [], newFiles := [], modifiedFiles := [], unchangedFiles := [] }
    root
  let unseen := idx.Synced.filter (fun e => decide (e.1 ∉ st.seen))
  { newFiles := st.newFiles
    modifiedFiles := st.modifiedFiles
    deletedFiles := unseen.map (fun e => { e.2 with Status := .untracked })
    err := none
    index := { idx with
      Synced := idx.Synced.filter (fun e => decide (e.1 ∈ st.seen)),
      Deleted := unseen.foldl
        (fun d e => mapInsert d e.1 { e.2 with Status := .untracked })
        idx.Deleted } }

/-- C10: `ScanWorkingDirectory` never changes `Files`, `Collections`,
`DefaultCollection` or `RepoRoot` (its only mutations are to `Synced` and
`Deleted`), and its returned error is `nil` regardless of walk-level or
per-file failures. -/
theorem scan_frame (idx : Index) (t : FsTree) :
    (Index.ScanWorkingDirectory idx t).index.Files = idx.Files ∧
    (Index.ScanWorkingDirectory idx t).index.Collections = idx.Collections ∧
    (Index.ScanWorkingDirectory idx t).index.DefaultCollection =
      idx.DefaultCollection ∧
    (Index.ScanWorkingDirectory idx t).index.RepoRoot = idx.RepoRoot ∧
    (Index.ScanWorkingDirectory idx t).err = none :=
  ⟨rfl, rfl, rfl, rfl, rfl⟩

/-- Concrete staged file used by witnesses. -/
def fileW : File :=
  { Path := "a", Size := 1, Hash := "h", LastModified := 0,
    Status := .staged, RemoteURL := "", Collection := "" }

/-- Concrete index with one staged file, used by witnesses. -/
def idxW : Index :=
  { Files := [("a", fileW)], Deleted := [], Synced := [], Collections := [],
    DefaultCollection := "", RepoRoot := "r" }

/-- Witness for `markSynced_spec` at a concrete index: both the synced case
and the no-op case, with every hypothesis discharged by evaluation. -/
theorem markSynced_spec_witness :
    mapLookup (Index.MarkSynced idxW "a" "u").Synced "a" =
      some { Path := "a", Size := 1, Hash := "h", LastModified := 0,
             Status := .synced, RemoteURL := "u", Collection := "" } ∧
    Index.MarkSynced (NewIndex "r") "a" "u" = NewIndex "r" := by
  refine ⟨((markSynced_spec idxW "a" "u").1 fileW (by decide)).1, ?_⟩
  exact (markSynced_spec (NewIndex "r") "a" "u").2 (by decide)

theorem scanWalk_eq_foldl (idx : Index) (t : FsTree) (st : ScanState) :
    scanWalk idx st t = (scanVisited t).foldl (scanFileStep idx) st := by
  induction t generalizing st with
  | nofiles => rfl
  | file werr node restat rest ih =>
    cases werr <;> simp [scanWalk, scanVisited, ih]
  | dir name werr children rest ihc ihr =>
    cases werr with
    | true => simp [scanWalk, scanVisited, ihr]
    | false =>
      by_cases h1 : name = ".git" ∨ name = ".hhx" ∨ strStartsWith name "." = true
      · simp [scanWalk, scanVisited, h1, ihr]
      · by_cases h2 : name = "cmake-build-debug" ∨ name = "build"
        · simp [scanWalk, scanVisited, h1, h2, ihr]
        · simp [scanWalk, scanVisited, h1, h2, ihc, ihr, List.foldl_append]

theorem scanFileStep_seen_sub (idx : Index) (st : ScanState) (n : FileNode)
    {p : String} (hp : p ∈ (scanFileStep idx st n).seen) :
    p ∈ st.seen ∨ n.rel = some p := by
  obtain ⟨size, mtime, rel, hash⟩ := n
  cases rel with
  | none => exact Or.inl (by simpa [scanFileStep] using hp)
  | some relPath =>
    by_cases hpre : strStartsWith relPath ".hhx/" = true
    · exact Or.inl (by simpa [scanFileStep, hpre] using hp)
    · cases hash with
      | none => exact Or.inl (by simpa [scanFileStep, hpre] using hp)
      | some h =>
        cases hsy : mapLookup idx.Synced relPath with
        | none => exact Or.inl (by simpa [scanFileStep, hpre, hsy] using hp)
        | some synced =>
          by_cases hh : synced.Hash ≠ h
          · simp [scanFileStep, hpre, hsy, hh] at hp
            rcases hp with hp | hp
            · exact Or.inr (by simp [hp])
            · exact Or.inl hp
          · simp [scanFileStep, hpre, hsy, hh] at hp
            rcases hp with hp | hp
            · exact Or.inr (by simp [hp])
            · exact Or.inl hp

theorem seen_foldl_of_not (idx : Index) (l : List FileNode) (st : ScanState)
    (p : String) (hl : ∀ n ∈ l, n.rel ≠ some p) (hst : p ∉ st.seen) :
    p ∉ (l.foldl (scanFileStep idx) st).seen := by
  induction l generalizing st with
  | nil => exact hst
  | cons n ns ih =>
    refine ih _ (fun m hm => hl m (List.mem_cons_of_mem _ hm)) ?_
    intro hp
    rcases scanFileStep_seen_sub idx st n hp with h | h
    · exact hst h
    · exact hl n (List.mem_cons_self _ _) h

theorem scanFileStep_modified_mono (idx : Index) (st : ScanState)
    (n : FileNode) :
    ∃ ext, (scanFileStep idx st n).modifiedFiles = st.modifiedFiles ++ ext := by
  obtain ⟨size, mtime, rel, hash⟩ := n
  cases rel with
  | none => exact ⟨[], by simp [scanFileStep]⟩
  | some relPath =>
    by_cases hpre : strStartsWith relPath ".hhx/" = true
    · exact ⟨[], by simp [scanFileStep, hpre]⟩
    · cases hash with
      | none => exact ⟨[], by simp [scanFileStep, hpre]⟩
      | some h =>
        cases hsy : mapLookup idx.Synced relPath with
        | none => exact ⟨[], by simp [scanFileStep, hpre, hsy]⟩
        | some synced =>
          by_cases hh : synced.Hash ≠ h
          · exact ⟨[File.mk relPath size h mtime .modified synced.RemoteURL ""],
              by simp [scanFileStep, hpre, hsy, hh]⟩
          · exact ⟨[], by simp [scanFileStep, hpre, hsy, hh]⟩

theorem foldl_modified_mono (idx : Index) (l : List FileNode)
    (st : ScanState) :
    ∃ ext, (l.foldl (scanFileStep idx) st).modifiedFiles =
      st.modifiedFiles ++ ext := by
  induction l generalizing st with
  | nil => exact ⟨[], by simp⟩
  | cons n ns ih =>
    obtain ⟨e1, he1⟩ := scanFileStep_modified_mono idx st n
    obtain ⟨e2, he2⟩ := ih (scanFileStep idx st n)
    exact ⟨e1 ++ e2, by simp [he2, he1]⟩

theorem modified_mem_foldl (idx : Index) {l : List FileNode}
    {st : ScanState} {p D2 : String} {s : File} {n : FileNode}
    (hn : n ∈ l) (hrel : n.rel = some p) (hhash : n.hash = some D2)
    (hpre : strStartsWith p ".hhx/" = false)
    (hsy : mapLookup idx.Synced p = some s) (hne : s.Hash ≠ D2) :
    ({ Path := p, Size := n.size, Hash := D2, LastModified := n.mtime,
       Status := .modified, RemoteURL := s.RemoteURL, Collection := "" } :
      File) ∈ (l.foldl (scanFileStep idx) st).modifiedFiles := by
  induction l generalizing st with
  | nil => cases hn
  | cons m ms ih =>
    rcases List.mem_cons.mp hn with rfl | hm
    · obtain ⟨ext, hext⟩ := foldl_modified_mono idx ms (scanFileStep idx st n)
      simp only [List.foldl_cons, hext]
      apply List.mem_append_left
      simp [scanFileStep, hrel, hhash, hsy, hpre, hne]
    · rw [List.foldl_cons]
      exact ih hm

theorem scanFileStep_no_path (idx : Index) (st : ScanState) (n : FileNode)
    (p : String) (s : File) (hsy : mapLookup idx.Synced p = some s)
    (hn : n.rel = some p → n.hash = some s.Hash)
    (hnew : ∀ f ∈ st.newFiles, f.Path ≠ p)
    (hmod : ∀ f ∈ st.modifiedFiles, f.Path ≠ p) :
    (∀ f ∈ (scanFileStep idx st n).newFiles, f.Path ≠ p) ∧
    (∀ f ∈ (scanFileStep idx st n).modifiedFiles, f.Path ≠ p) := by
  obtain ⟨size, mtime, rel, hash⟩ := n
  cases rel with
  | none => exact ⟨by simpa [scanFileStep] using hnew,
                   by simpa [scanFileStep] using hmod⟩
  | some relPath =>
    by_cases hpre : strStartsWith relPath ".hhx/" = true
    · exact ⟨by simpa [scanFileStep, hpre] using hnew,
             by simpa [scanFileStep, hpre] using hmod⟩
    · cases hash with
      | none => exact ⟨by simpa [scanFileStep, hpre] using hnew,
                       by simpa [scanFileStep, hpre] using hmod⟩
      | some h =>
        by_cases hrp : relPath = p
        · subst hrp
          have hh : h = s.Hash := by
            have := hn (by simp)
            simpa using this
          subst hh
          simp only [scanFileStep, hsy]
          rw [if_neg hpre, if_neg (by simp)]
          exact ⟨by simpa using hnew, by simpa using hmod⟩
        · cases hsy2 : mapLookup idx.Synced relPath with
          | none =>
            simp only [scanFileStep, hsy2]
            rw [if_neg hpre]
            constructor
            · intro f hf
              rcases List.mem_append.mp hf with hf | hf
              · exact hnew f hf
              · simp at hf
                simp [hf, hrp]
            · exact fun f hf => hmod f hf
          | some synced =>
            by_cases hh : synced.Hash ≠ h
            · simp only [scanFileStep, hsy2]
              rw [if_neg hpre, if_pos hh]
              refine ⟨fun f hf => hnew f hf, ?_⟩
              intro f hf
              rcases List.mem_append.mp hf with hf | hf
              · exact hmod f hf
              · simp at hf
                simp [hf, hrp]
            · simp only [scanFileStep, hsy2]
              rw [if_neg hpre, if_neg hh]
              exact ⟨fun f hf => hnew f hf, fun f hf => hmod f hf⟩

theorem foldl_no_path (idx : Index) (l : List FileNode) (st : ScanState)
    (p : String) (s : File) (hsy : mapLookup idx.Synced p = some s)
    (hl : ∀ n ∈ l, n.rel = some p → n.hash = some s.Hash)
    (hnew : ∀ f ∈ st.newFiles, f.Path ≠ p)
    (hmod : ∀ f ∈ st.modifiedFiles, f.Path ≠ p) :
    (∀ f ∈ (l.foldl (scanFileStep idx) st).newFiles, f.Path ≠ p) ∧
    (∀ f ∈ (l.foldl (scanFileStep idx) st).modifiedFiles, f.Path ≠ p) := by
  induction l generalizing st with
  | nil => exact ⟨hnew, hmod⟩
  | cons n ns ih =>
    obtain ⟨h1, h2⟩ := scanFileStep_no_path idx st n p s hsy
      (hl n (List.mem_cons_self _ _)) hnew hmod
    exact ih (scanFileStep idx st n)
      (fun m hm => hl m (List.mem_cons_of_mem _ hm)) h1 h2

theorem mapLookup_foldl_insert_of_forall {α : Type} (g : String × α → α)
    (l : List (String × α)) (d : List (String × α)) (p : String)
    (h : ∀ e ∈ l, e.1 ≠ p) :
    mapLookup (l.foldl (fun d e => mapInsert d e.1 (g e)) d) p =
      mapLookup d p := by
  induction l generalizing d with
  | nil => rfl
  | cons e es ih =>
    rw [List.foldl_cons, ih _ (fun e' he' => h e' (List.mem_cons_of_mem _ he'))]
    exact mapLookup_insert_ne _ _ (fun hq => h e (List.mem_cons_self _ _) hq.symm)

theorem mapLookup_foldl_insert_of_mem {α : Type} (g : String × α → α)
    (l : List (String × α)) (d : List (String × α)) (p : String) (v : α)
    (hmem : (p, v) ∈ l) (hnd : (l.map Prod.fst).Nodup) :
    mapLookup (l.foldl (fun d e => mapInsert d e.1 (g e)) d) p =
      some (g (p, v)) := by
  induction l generalizing d with
  | nil => cases hmem
  | cons e es ih =>
    rcases List.mem_cons.mp hmem with rfl | hm
    · have hnotin : ∀ e' ∈ es, e'.1 ≠ p := by
        intro e' he' hq
        have h1 : e'.1 ∈ es.map Prod.fst := List.mem_map_of_mem Prod.fst he'
        rw [hq] at h1
        exact (List.nodup_cons.mp hnd).1 h1
      rw [List.foldl_cons, mapLookup_foldl_insert_of_forall g es _ p hnotin]
      exact mapLookup_insert_self _ _ _
    · rw [List.foldl_cons]
      exact ih _ hm (List.nodup_cons.mp hnd).2

/-- C4: every `Synced` path that the walk of `ScanWorkingDirectory` does
not encounter is returned in `deletedFiles` (with status forced to
untracked), removed from `Synced`, and added to `Deleted`. -/
theorem scan_deleted_detection (idx : Index) (t : FsTree) (p : String)
    (s : File) (hnd : (idx.Synced.map Prod.fst).Nodup)
    (hsy : mapLookup idx.Synced p = some s)
    (habs : ∀ n ∈ scanVisited t, n.rel ≠ some p) :
    ({ s with Status := FileStatus.untracked } : File) ∈
      (Index.ScanWorkingDirectory idx t).deletedFiles ∧
    mapLookup (Index.ScanWorkingDirectory idx t).index.Synced p = none ∧
    mapLookup (Index.ScanWorkingDirectory idx t).index.Deleted p =
      some { s with Status := FileStatus.untracked } := by
  have hseen : p ∉ (scanWalk idx
      { seen := [], newFiles := [], modifiedFiles := [],
        unchangedFiles := [] } t).seen := by
    rw [scanWalk_eq_foldl]
    exact seen_foldl_of_not idx _ _ p habs (by simp)
  have hmem : (p, s) ∈ idx.Synced := mem_of_mapLookup_eq_some hsy
  have hunseen : (p, s) ∈ idx.Synced.filter
      (fun e => decide (e.1 ∉ (scanWalk idx
        { seen := [], newFiles := [], modifiedFiles := [],
          unchangedFiles := [] } t).seen)) :=
    List.mem_filter.mpr ⟨hmem, by simpa using hseen⟩
  refine ⟨?_, ?_, ?_⟩
  · simp only [Index.ScanWorkingDirectory]
    exact List.mem_map_of_mem _ hunseen
  · simp only [Index.ScanWorkingDirectory]
    apply mapLookup_eq_none_of_forall
    intro e he hq
    have := (List.mem_filter.mp he).2
    simp only [decide_eq_true_eq] at this
    exact hseen (hq ▸ this)
  · simp only [Index.ScanWorkingDirectory]
    have hndf : ((idx.Synced.filter (fun e => decide (e.1 ∉ (scanWalk idx
        { seen := [], newFiles := [], modifiedFiles := [],
          unchangedFiles := [] } t).seen))).map Prod.fst).Nodup :=
      hnd.sublist (List.Sublist.map Prod.fst (List.filter_sublist _))
    exact mapLookup_foldl_insert_of_mem _ _ _ p s hunseen hndf

/-- Synced record used by the C4/C5 witnesses. -/
def fileSyncedW : File :=
  { Path := "a", Size := 1, Hash := "D1", LastModified := 0,
    Status := .synced, RemoteURL := "u", Collection := "" }

/-- Index with one synced file `a`, used by the C4/C5 witnesses. -/
def idxScanW : Index :=
  { Files := [], Deleted := [], Synced := [("a", fileSyncedW)],
    Collections := [], DefaultCollection := "", RepoRoot := "r" }

/-- Witness for `scan_deleted_detection`: an empty working tree deletes the
synced file `a`; all hypotheses discharged by evaluation. -/
theorem scan_deleted_detection_witness :
    (idxScanW.Synced.map Prod.fst).Nodup ∧
    mapLookup idxScanW.Synced "a" = some fileSyncedW ∧
    (∀ n ∈ scanVisited (.dir "r" false .nofiles .nofiles), n.rel ≠ some "a") ∧
    (({ fileSyncedW with Status := FileStatus.untracked } : File) ∈
      (Index.ScanWorkingDirectory idxScanW
        (.dir "r" false .nofiles .nofiles)).deletedFiles ∧
    mapLookup (Index.ScanWorkingDirectory idxScanW
      (.dir "r" false .nofiles .nofiles)).index.Synced "a" = none ∧
    mapLookup (Index.ScanWorkingDirectory idxScanW
      (.dir "r" false .nofiles .nofiles)).index.Deleted "a" =
      some { fileSyncedW with Status := FileStatus.untracked }) :=
  ⟨by decide, by decide, by decide,
   scan_deleted_detection idxScanW (.dir "r" false .nofiles .nofiles) "a"
     fileSyncedW (by decide) (by decide) (by decide)⟩

/-- C5: for a `Synced` entry at `p` with digest `s.Hash` and remote
location `s.RemoteURL`, if the walk visits `p` with a different digest
`D2`, the scan returns a Modified record for `p` with digest `D2` and the
prior remote location; if every visit of `p` sees the synced digest, `p`
appears in neither `newFiles` nor `modifiedFiles`. -/
theorem scan_modified_detection (idx : Index) (t : FsTree) (p D2 : String)
    (s : File) (n : FileNode)
    (hsy : mapLookup idx.Synced p = some s)
    (hn : n ∈ scanVisited t) (hrel : n.rel = some p)
    (hpre : strStartsWith p ".hhx/" = false) :
    (n.hash = some D2 → s.Hash ≠ D2 →
      File.mk p n.size D2 n.mtime .modified s.RemoteURL "" ∈
        (Index.ScanWorkingDirectory idx t).modifiedFiles) ∧
    ((∀ m ∈ scanVisited t, m.rel = some p → m.hash = some s.Hash) →
      (∀ f ∈ (Index.ScanWorkingDirectory idx t).newFiles, f.Path ≠ p) ∧
      (∀ f ∈ (Index.ScanWorkingDirectory idx t).modifiedFiles, f.Path ≠ p)) := by
  constructor
  · intro hhash hne
    simp only [Index.ScanWorkingDirectory, scanWalk_eq_foldl]
    exact modified_mem_foldl idx hn hrel hhash hpre hsy hne
  · intro hall
    simp only [Index.ScanWorkingDirectory, scanWalk_eq_foldl]
    exact foldl_no_path idx _ _ p s hsy hall (by simp) (by simp)

/-- Walk node observing `a` with the changed digest `D2`. -/
def nodeModW : FileNode :=
  { size := 2, mtime := 5, rel := some "a", hash := some "D2" }

/-- Working tree whose only file is `a` with digest `D2`. -/
def treeModW : FsTree :=
  .dir "r" false (.file false nodeModW none .nofiles) .nofiles

/-- Walk node observing `a` with the unchanged digest `D1`. -/
def nodeSameW : FileNode :=
  { size := 1, mtime := 0, rel := some "a", hash := some "D1" }

/-- Working tree whose only file is `a` with digest `D1`. -/
def treeSameW : FsTree :=
  .dir "r" false (.file false nodeSameW none .nofiles) .nofiles

/-- Witness for `scan_modified_detection`: both the changed-digest and the
unchanged-digest cases at a concrete index, every hypothesis discharged by
evaluation. -/
theorem scan_modified_detection_witness :
    (mapLookup idxScanW.Synced "a" = some fileSyncedW ∧
     nodeModW ∈ scanVisited treeModW ∧
     File.mk "a" 2 "D2" 5 .modified "u" "" ∈
       (Index.ScanWorkingDirectory idxScanW treeModW).modifiedFiles) ∧
    ((∀ f ∈ (Index.ScanWorkingDirectory idxScanW treeSameW).newFiles,
        f.Path ≠ "a") ∧
     (∀ f ∈ (Index.ScanWorkingDirectory idxScanW treeSameW).modifiedFiles,
        f.Path ≠ "a")) := by
  refine ⟨⟨by decide, by decide, ?_⟩, ?_⟩
  · exact (scan_modified_detection idxScanW treeModW "a" "D2" fileSyncedW
      nodeModW (by decide) (by decide) (by decide) (by decide)).1
      (by decide) (by decide)
  · exact (scan_modified_detection idxScanW treeSameW "a" "D1" fileSyncedW
      nodeSameW (by decide) (by decide) (by decide) (by decide)).2
      (by decide)

/-- `Index.AddCollection` from `internal/models/index.go`: validate, fail
on duplicate, insert, and make the collection the default when the map has
exactly one entry after the insert. -/
def Index.AddCollection (idx : Index) (c : Collection) :
    Except IndexError Index :=
  match c.Validate with
  | some msg => .error (.validation msg)
  | none =>
    match mapLookup idx.Collections c.Name with
    | some _ => .error .collectionExists
    | none =>
      let cols := mapInsert idx.Collections c.Name c
      if cols.length = 1 then
        .ok { idx with Collections := cols, DefaultCollection := c.Name }
      else .ok { idx with Collections := cols }

/-- `Index.UpdateCollection` from `internal/models/index.go`. -/
def Index.UpdateCollection (idx : Index) (c : Collection) :
    Except IndexError Index :=
  match c.Validate with
  | some msg => .error (.validation msg)
  | none =>
    match mapLookup idx.Collections c.Name with
    | none => .error .collectionNotFound
    | some _ =>
      .ok { idx with Collections := mapInsert idx.Collections c.Name c }

/-- `Index.RemoveCollection` from `internal/models/index.go`. Go picks the
new default by taking the first key of a nondeterministic map iteration;
the model resolves that choice to the first remaining entry. -/
def Index.RemoveCollection (idx : Index) (name : String) :
    Except IndexError Index :=
  match mapLookup idx.Collections name with
  | none => .error .collectionNotFound
  | some _ =>
    let cols := mapErase idx.Collections name
    if idx.DefaultCollection = name then
      match cols with
      | [] => .ok { idx with Collections := cols, DefaultCollection := "" }
      | e :: _ =>
        .ok { idx with Collections := cols, DefaultCollection := e.1 }
    else .ok { idx with Collections := cols }

/-- `Index.SetDefaultCollection` from `internal/models/index.go`. -/
def Index.SetDefaultCollection (idx : Index) (name : String) :
    Except IndexError Index :=
  match mapLookup idx.Collections name with
  | none => .error .collectionNotFound
  | some _ => .ok { idx with DefaultCollection := name }

/-- One invocation of a mutating `Index` method, carrying the filesystem
observations the method would make. -/
inductive Op where
  | stageFile (obs : PathObs)
  | unstageFile (rel : Option String)
  | stageDirectory (t : FsTree)
  | markSynced (path url : String)
  | scan (t : FsTree)
  | addCollection (c : Collection)
  | updateCollection (c : Collection)
  | removeCollection (name : String)
  | setDefaultCollection (name : String)

/-- Effect of one method call on the receiver (a method that returns an
error leaves the receiver in the state it had reached at the return). -/
def applyOp (idx : Index) : Op → Index
  | .stageFile obs => (Index.StageFile idx obs).1
  | .unstageFile rel => Index.UnstageFile idx rel
  | .stageDirectory t => (Index.StageDirectory idx t).1
  | .markSynced p u => Index.MarkSynced idx p u
  | .scan t => (Index.ScanWorkingDirectory idx t).index
  | .addCollection c => (Index.AddCollection idx c).toOption.getD idx
  | .updateCollection c => (Index.UpdateCollection idx c).toOption.getD idx
  | .removeCollection n => (Index.RemoveCollection idx n).toOption.getD idx
  | .setDefaultCollection n =>
    (Index.SetDefaultCollection idx n).toOption.getD idx

/-- States reachable from a fresh index by a sequence of method calls. -/
def runOps (root : String) (ops : List Op) : Index :=
  ops.foldl applyOp (NewIndex root)

/-- In how many of the three populations `Files`, `Synced`, `Deleted` the
path `p` occurs as a key. -/
def popCount (idx : Index) (p : String) : Nat :=
  (if mapLookup idx.Files p = none then 0 else 1) +
  (if mapLookup idx.Synced p = none then 0 else 1) +
  (if mapLookup idx.Deleted p = none then 0 else 1)

/-- Observations for staging the file `a`. -/
def obsC1 : PathObs :=
  { rel := some "a", stat := some (false, 1, 0), hash := some "h" }

/-- C1 counterexample: stage `a`, mark it synced, stage it again — the
reached state has `a` as a key of both `Files` and `Synced` (`StageFile`
reads the `Synced` entry for classification but never removes it), so a
reachable state holds a path in two populations at once. -/
theorem index_populations_counterexample :
    1 < popCount (runOps "r"
      [.stageFile obsC1, .markSynced "a" "u", .stageFile obsC1]) "a" := by
  decide

theorem classifyAndStage_Path (idx : Index) (f0 : File) :
    (classifyAndStage idx f0).Path = f0.Path := by
  unfold classifyAndStage
  cases mapLookup idx.Synced f0.Path with
  | none => rfl
  | some synced => by_cases h : synced.Hash = f0.Hash <;> simp [h]

/-- C1 (amended): the three populations are not pairwise disjoint in
reachable states (see `index_populations_counterexample`); what each
transition does guarantee is that it clears its designated source
population for the path it inserts — `StageFile` removes the staged path
from `Deleted`, `MarkSynced` removes the path it moves into `Synced` from
`Files`, and `ScanWorkingDirectory` removes every path it adds to
`Deleted` from `Synced`. -/
theorem index_population_moves (idx : Index) (obs : PathObs) (p u : String)
    (t : FsTree) :
    (∀ f0, NewFileFromPath obs = some (some f0) →
      mapLookup (Index.StageFile idx obs).1.Deleted f0.Path = none) ∧
    (mapLookup (Index.MarkSynced idx p u).Synced p ≠ mapLookup idx.Synced p →
      mapLookup (Index.MarkSynced idx p u).Files p = none) ∧
    (∀ q, mapLookup (Index.ScanWorkingDirectory idx t).index.Deleted q ≠
        mapLookup idx.Deleted q →
      mapLookup (Index.ScanWorkingDirectory idx t).index.Synced q = none) := by
  refine ⟨?_, ?_, ?_⟩
  · intro f0 hf0
    simp only [Index.StageFile, hf0]
    rw [classifyAndStage_Path]
    have := mapLookup_erase_self idx.Deleted (classifyAndStage idx f0).Path
    rw [classifyAndStage_Path] at this
    exact this
  · intro hch
    cases hf : mapLookup idx.Files p with
    | none => exact absurd (by simp [Index.MarkSynced, hf]) hch
    | some f =>
      simp only [Index.MarkSynced, hf]
      exact mapLookup_erase_self _ _
  · intro q hq
    simp only [Index.ScanWorkingDirectory] at hq ⊢
    set st := scanWalk idx
      { seen := [], newFiles := [], modifiedFiles := [],
        unchangedFiles := [] } t with hst
    by_cases hex : ∀ e ∈ idx.Synced.filter (fun e => decide (e.1 ∉ st.seen)),
        e.1 ≠ q
    · exact absurd (mapLookup_foldl_insert_of_forall _ _ _ q hex) hq
    · push_neg at hex
      obtain ⟨e, hmem, heq⟩ := hex
      have hnot : e.1 ∉ st.seen := by
        simpa using (List.mem_filter.mp hmem).2
      apply mapLookup_eq_none_of_forall
      intro e' he' hq'
      have h2 : e'.1 ∈ st.seen := by
        simpa using (List.mem_filter.mp he').2
      rw [hq'] at h2
      rw [heq] at hnot
      exact hnot h2

/-- Witness for `index_population_moves`: all three move guarantees at
concrete states, every hypothesis discharged by evaluation. -/
theorem index_population_moves_witness :
    mapLookup (Index.StageFile idxW obsC1).1.Deleted "a" = none ∧
    mapLookup (Index.MarkSynced idxW "a" "u").Files "a" = none ∧
    mapLookup (Index.ScanWorkingDirectory idxScanW
      (.dir "r" false .nofiles .nofiles)).index.Synced "a" = none := by
  refine ⟨?_, ?_, ?_⟩
  · exact (index_population_moves idxW obsC1 "a" "u" FsTree.nofiles).1
      (File.mk "a" 1 "h" 0 .untracked "" "") (by decide)
  · exact (index_population_moves idxW obsC1 "a" "u" FsTree.nofiles).2.1
      (by decide)
  · exact (index_population_moves idxScanW obsC1 "a" "u"
      (.dir "r" false .nofiles .nofiles)).2.2 "a" (by decide)

/-- C9: the first collection added to an empty registry becomes the
default; removing the current default reassigns the default to a remaining
collection, or clears it when none remain; removing an unregistered name
fails with `CollectionNotFound` and leaves the index unchanged. -/
theorem collection_default_spec (idx : Index) (c : Collection)
    (name : String) :
    (idx.Collections = [] → ∀ j, Index.AddCollection idx c = .ok j →
      j.DefaultCollection = c.Name) ∧
    (∀ j, Index.RemoveCollection idx idx.DefaultCollection = .ok j →
      (j.Collections = [] ∧ j.DefaultCollection = "") ∨
      mapLookup j.Collections j.DefaultCollection ≠ none) ∧
    (mapLookup idx.Collections name = none →
      Index.RemoveCollection idx name = .error .collectionNotFound ∧
      applyOp idx (.removeCollection name) = idx) := by
  refine ⟨?_, ?_, ?_⟩
  · intro h0 j hj
    cases hv : c.Validate with
    | some msg => simp [Index.AddCollection, hv] at hj
    | none =>
      simp [Index.AddCollection, hv, h0, mapLookup, mapInsert] at hj
      rw [hj.symm]
  · intro j hj
    cases hl : mapLookup idx.Collections idx.DefaultCollection with
    | none => simp [Index.RemoveCollection, hl] at hj
    | some c0 =>
      simp only [Index.RemoveCollection, hl] at hj
      cases hcols : mapErase idx.Collections idx.DefaultCollection with
      | nil =>
        rw [hcols] at hj
        simp at hj
        subst hj
        left
        exact ⟨rfl, rfl⟩
      | cons e es =>
        rw [hcols] at hj
        simp at hj
        subst hj
        right
        simp [mapLookup]
  · intro h
    refine ⟨by simp [Index.RemoveCollection, h], ?_⟩
    simp [applyOp, Index.RemoveCollection, h, Except.toOption]

/-- Valid bucket collection used by the C9 witness. -/
def colW : Collection :=
  { Name := "x", Type' := "bucket", Path := "p", Schema := none,
    Metadata := [] }

/-- Index holding exactly the collection `x` as its default. -/
def idxColW : Index :=
  { Files := [], Deleted := [], Synced := [], Collections := [("x", colW)],
    DefaultCollection := "x", RepoRoot := "r" }

/-- Index after removing the last collection. -/
def idxColRemW : Index :=
  { Files := [], Deleted := [], Synced := [], Collections := [],
    DefaultCollection := "", RepoRoot := "r" }

/-- Witness for `collection_default_spec`: the first-added default, the
default clearing on removal of the last collection, and the not-found
failure, at concrete states. -/
theorem collection_default_spec_witness :
    idxColW.DefaultCollection = colW.Name ∧
    ((idxColRemW.Collections = [] ∧ idxColRemW.DefaultCollection = "") ∨
      mapLookup idxColRemW.Collections idxColRemW.DefaultCollection ≠ none) ∧
    (Index.RemoveCollection (NewIndex "r") "nope" =
        .error IndexError.collectionNotFound ∧
      applyOp (NewIndex "r") (.removeCollection "nope") = NewIndex "r") := by
  refine ⟨?_, ?_, ?_⟩
  · exact (collection_default_spec (NewIndex "r") colW "nope").1 rfl
      idxColW rfl
  · exact (collection_default_spec idxColW colW "nope").2.1 idxColRemW rfl
  · exact (collection_default_spec (NewIndex "r") colW "nope").2.2 rfl

/-- Go `path/filepath.Dir` (standard library, not repository code),
modelled for slash-separated paths: everything before the final separator,
with trailing separators cleaned; `"."` when there is no separator and
`"/"` for the root. Dot and dot-dot components are not resolved (Go's
`Clean` would); the index-path convention `<root>/<metadata-dir>/file`
contains none. -/
def filepathDir (p : String) : String :=
  let r := p.data.reverse.dropWhile (fun c => c != '/')
  let r2 := r.dropWhile (fun c => c == '/')
  if r2.isEmpty then (if r.isEmpty then "." else "/")
  else String.mk r2.reverse

/-- The JSON document shape of a serialized `Index`, following the struct
tags on `Index`: `files` and `repo_root` are always present keys (modulo
`null`, which deserializes like absence), the rest carry `omitempty`.
A field is `none` when the key is absent from the document. -/
structure IndexDoc where
  files : Option (List (String × File))
  deleted : Option (List (String × File))
  synced : Option (List (String × File))
  collections : Option (List (String × Collection))
  default_collection : Option String
  repo_root : String
deriving DecidableEq, Repr

/-- `json.MarshalIndent` on `Index` at document level: `omitempty` drops
nil/empty maps and the empty default-collection string. -/
def marshalIndex (idx : Index) : IndexDoc :=
  { files := some idx.Files
    deleted := if idx.Deleted.isEmpty then none else some idx.Deleted
    synced := if idx.Synced.isEmpty then none else some idx.Synced
    collections := if idx.Collections.isEmpty then none
                   else some idx.Collections
    default_collection := if idx.DefaultCollection = "" then none
                          else some idx.DefaultCollection
    repo_root := idx.RepoRoot }

/-- Outcome of the `os.ReadFile` + `json.Unmarshal` pair in `LoadIndex`. -/
inductive ReadResult where
  | notExist
  | readFailure
  | parseFailure
  | content (doc : IndexDoc)
deriving DecidableEq, Repr

/-- `LoadIndex` from `internal/models/index.go`: a missing file yields a
fresh index rooted at the grandparent directory of the index path; a read
or unmarshal error propagates (`none`); otherwise the document is decoded
and every nil map is initialized to empty. -/
def LoadIndex (res : ReadResult) (path : String) : Option Index :=
  match res with
  | .notExist => some (NewIndex (filepathDir (filepathDir path)))
  | .readFailure => none
  | .parseFailure => none
  | .content doc =>
    some { Files := doc.files.getD []
           Deleted := doc.deleted.getD []
           Synced := doc.synced.getD []
           Collections := doc.collections.getD []
           DefaultCollection := doc.default_collection.getD ""
           RepoRoot := doc.repo_root }

/-- Content of one path on disk: an intact serialized document, or the
partial bytes left by an interrupted write (which no longer parse). -/
inductive DiskFile where
  | intact (doc : IndexDoc)
  | corrupt
deriving DecidableEq, Repr

/-- How far `Index.Save` gets: `MkdirAll`, then `os.WriteFile` on the
target path. -/
inductive SaveOutcome where
  | ok
  | mkdirFail
  | writeFail
deriving DecidableEq, Repr

/-- `Index.Save` from `internal/models/index.go` acting on a disk of
serialized documents. The source calls `os.WriteFile(path, data, 0644)`
directly on the target — no temporary file and no rename — and
`os.WriteFile` opens with `O_TRUNC`, so a write that fails midway leaves
the target holding a partial document (`corrupt`), not its old content.
The `Bool` is `true` when Go returns a non-nil error. -/
def Index.SaveDisk (idx : Index) (d : List (String × DiskFile))
    (path : String) : SaveOutcome → List (String × DiskFile) × Bool
  | .ok => (mapInsert d path (.intact (marshalIndex idx)), false)
  | .mkdirFail => (d, true)
  | .writeFail => (mapInsert d path .corrupt, true)

/-- `os.ReadFile` + `json.Unmarshal` against the modelled disk. -/
def diskRead (d : List (String × DiskFile)) (p : String) : ReadResult :=
  match mapLookup d p with
  | none => .notExist
  | some (.intact doc) => .content doc
  | some .corrupt => .parseFailure

/-- C6: a successful `Save` followed by `Load` of the same path reproduces
the index exactly — in particular equal `Files`, `Synced`, `Deleted`,
`Collections` maps and `DefaultCollection` — through the JSON document
codec, whatever the previous disk content. -/
theorem save_load_roundtrip (idx : Index) (d : List (String × DiskFile))
    (path : String) :
    LoadIndex (diskRead (Index.SaveDisk idx d path .ok).1 path) path =
      some idx := by
  have h := mapLookup_insert_self d path (DiskFile.intact (marshalIndex idx))
  simp only [Index.SaveDisk, diskRead, h, LoadIndex]
  obtain ⟨fs, dels, syncs, cols, dc, rr⟩ := idx
  simp only [marshalIndex]
  cases dels <;> cases syncs <;> cases cols <;> by_cases hdc : dc = "" <;>
    simp_all [List.isEmpty]

/-- C8: loading a missing index file yields a fresh index, all four maps
empty, rooted at the grandparent directory of the index path; loading an
existing document initializes every absent top-level map to empty. -/
theorem load_missing_and_absent_maps (path : String) (doc : IndexDoc) :
    (∃ i, LoadIndex .notExist path = some i ∧
      i.Files = [] ∧ i.Deleted = [] ∧ i.Synced = [] ∧ i.Collections = [] ∧
      i.RepoRoot = filepathDir (filepathDir path)) ∧
    (∀ i, LoadIndex (.content doc) path = some i →
      (doc.files = none → i.Files = []) ∧
      (doc.deleted = none → i.Deleted = []) ∧
      (doc.synced = none → i.Synced = []) ∧
      (doc.collections = none → i.Collections = [])) := by
  constructor
  · exact ⟨_, rfl, rfl, rfl, rfl, rfl, rfl⟩
  · intro i hi
    simp only [LoadIndex, Option.some.injEq] at hi
    subst hi
    refine ⟨fun h => ?_, fun h => ?_, fun h => ?_, fun h => ?_⟩ <;> simp [h]

/-- Serialized document with every optional key absent. -/
def docEmptyW : IndexDoc :=
  { files := none, deleted := none, synced := none, collections := none,
    default_collection := none, repo_root := "r" }

/-- Witness for `load_missing_and_absent_maps`: a wholly key-less document
decodes to empty maps, and the grandparent-root convention evaluates on a
concrete index path; every hypothesis discharged by evaluation. -/
theorem load_missing_and_absent_maps_witness :
    ((Index.mk [] [] [] [] "" "r").Files = [] ∧
     (Index.mk [] [] [] [] "" "r").Deleted = [] ∧
     (Index.mk [] [] [] [] "" "r").Synced = [] ∧
     (Index.mk [] [] [] [] "" "r").Collections = []) ∧
    filepathDir (filepathDir "root/.hhx/index.json") = "root" := by
  constructor
  · have h := (load_missing_and_absent_maps "root/.hhx/index.json"
      docEmptyW).2 (Index.mk [] [] [] [] "" "r") rfl
    exact ⟨h.1 rfl, h.2.1 rfl, h.2.2.1 rfl, h.2.2.2 rfl⟩
  · rfl

/-- C3 evidence: `Save` writes the target in place, so a write failure
replaces the previously persisted intact document with partial content —
the old index file is not preserved on a write error, contradicting the
temp-file-plus-rename requirement. -/
theorem save_truncates_on_write_error :
    (Index.SaveDisk (NewIndex "r")
        [("r/.hhx/index.json", DiskFile.intact (marshalIndex idxW))]
        "r/.hhx/index.json" .writeFail).2 = true ∧
    mapLookup (Index.SaveDisk (NewIndex "r")
        [("r/.hhx/index.json", DiskFile.intact (marshalIndex idxW))]
        "r/.hhx/index.json" .writeFail).1 "r/.hhx/index.json" =
      some DiskFile.corrupt ∧
    some DiskFile.corrupt ≠ some (DiskFile.intact (marshalIndex idxW)) := by
  decide

end Hhx
